import Mathlib

/-!
Shallow embedding of the two PPO training scripts of the repository,
`src/ppo/ppo_mujoco_humanoid.py` (diagonal-Gaussian policy) and
`src/ppo/ppo_mujoco_humanoid_beta.py` (Beta policy), together with proofs
settling the frozen claims about them.

Real tensor arithmetic is embedded over ℚ.  Every torch operation the claims
mention (`clamp`, `max`, squared error, the GAE recursion, action rescaling)
acts elementwise and independently per tensor slot, so tensors are embedded
either as single scalar slots or as lists of scalars; the control flow of the
scripts (dead training branch, KL early stopping, non-finite parameter check,
minibatch slicing) is embedded as explicit Lean functions mirroring the
Python statements line by line.
-/

/-! ### Claim C2: the Gaussian script's training branch is dead code

Embeds `ppo_mujoco_humanoid.py` lines 182-198 and 390: after `parse_args`
the script executes `args.train_flag = False` (line 194) and then tests
`if args.track and args.train_flag:` (line 198); the `else` branch (line 390)
runs the evaluation/test path. -/

inductive MainPath
  | trainPath
  | testPath
  deriving DecidableEq

/-- Embedding of the branch selection of the Gaussian script's main block:
`args.train_flag = False` overwrites whatever `--train-flag` was parsed from
the command line, and the branch then tests `args.track and args.train_flag`. -/
def humanoidMainPath (track train_flag_cli : Bool) : MainPath :=
  let train_flag := false
  if track && train_flag then MainPath.trainPath else MainPath.testPath

/-- C2: in the Gaussian-variant script the training branch (rollout, advantage
estimation, optimization) is unreachable for every command-line configuration:
`train_flag` is unconditionally assigned `False` before the test
`if args.track and args.train_flag`, so every run takes the evaluation path. -/
theorem humanoid_train_unreachable (track train_flag_cli : Bool) :
    humanoidMainPath track train_flag_cli = MainPath.testPath := by
  cases track <;> rfl

/-! ### Claim C10: batch/minibatch divisibility is never checked

Embeds `parse_args` lines 86-89 (Gaussian) and 82-85 (Beta): after argument
parsing the scripts compute `args.batch_size = num_envs * num_steps` and
`args.minibatch_size = batch_size // num_minibatches` and return; there is no
assert and no error path.  The `Except` result type models the possibility of
a fatal setup error; the source never produces one. -/

structure BatchConfig where
  batch_size : ℕ
  minibatch_size : ℕ
  deriving DecidableEq

inductive SetupError
  | batchNotDivisible
  deriving DecidableEq

/-- Embedding of the derived-configuration tail of `parse_args`: floored
integer division, no divisibility check, never an error. -/
def parse_args_batch (num_envs num_steps num_minibatches : ℕ) :
    Except SetupError BatchConfig :=
  Except.ok { batch_size := num_envs * num_steps,
              minibatch_size := num_envs * num_steps / num_minibatches }

/-- C10 counterexample: with `num_envs = 1`, `num_steps = 10`,
`num_minibatches = 3` the batch size 10 is not divisible by 3, yet
`parse_args` accepts the configuration with the floored minibatch size 3 and
raises no fatal setup error, contradicting the claim as stated. -/
theorem batch_divisibility_cex :
    parse_args_batch 1 10 3 = Except.ok { batch_size := 10, minibatch_size := 3 } ∧
    ¬ (3 ∣ 10) :=
  ⟨rfl, by decide⟩

/-- C10 (amended): when `batch_size = num_envs * num_steps` is not evenly
divisible by `num_minibatches`, no error is raised; the configuration is
silently accepted with `minibatch_size` floored to
`batch_size / num_minibatches`. -/
theorem batch_divisibility_amended (num_envs num_steps num_minibatches : ℕ)
    (hnd : ¬ (num_minibatches ∣ num_envs * num_steps)) :
    parse_args_batch num_envs num_steps num_minibatches =
      Except.ok { batch_size := num_envs * num_steps,
                  minibatch_size := num_envs * num_steps / num_minibatches } :=
  rfl

/-- Witness for the amended C10 at the concrete non-divisible configuration. -/
theorem batch_divisibility_amended_witness :
    parse_args_batch 1 10 3 =
      Except.ok { batch_size := 1 * 10, minibatch_size := 1 * 10 / 3 } :=
  batch_divisibility_amended 1 10 3 (by decide)

/-! ### Claim C7: Beta-variant action rescaling

Embeds `Agent.scale_by_action_bounds` and `Agent.inv_scale_by_action_bounds`
(`ppo_mujoco_humanoid_beta.py` lines 151-155); both are elementwise affine
maps, embedded per action dimension. -/

/-- Embedding of `Agent.scale_by_action_bounds`:
`beta_dist_samples * (high - low) + low`. -/
def scale_by_action_bounds (low high x : ℚ) : ℚ :=
  x * (high - low) + low

/-- Embedding of `Agent.inv_scale_by_action_bounds`:
`(actions - low) / (high - low)`. -/
def inv_scale_by_action_bounds (low high a : ℚ) : ℚ :=
  (a - low) / (high - low)

/-- C7: for nondegenerate declared bounds `low < high` (true of the Humanoid
action space, whose bounds are `[-0.4, 0.4]` in every dimension), inverse
rescaling after rescaling is the identity on `[0, 1]`, and the rescaled value
of any Beta sample `x ∈ [0, 1]` lies within `[low, high]` inclusive, so every
action sampled by `get_action_and_value` respects the declared bounds. -/
theorem beta_action_scaling (low high x : ℚ)
    (hlh : low < high) (hx0 : 0 ≤ x) (hx1 : x ≤ 1) :
    inv_scale_by_action_bounds low high (scale_by_action_bounds low high x) = x ∧
    low ≤ scale_by_action_bounds low high x ∧
    scale_by_action_bounds low high x ≤ high := by
  have hne : high - low ≠ 0 := sub_ne_zero.mpr (ne_of_gt hlh)
  refine ⟨?_, ?_, ?_⟩
  · unfold inv_scale_by_action_bounds scale_by_action_bounds
    rw [add_sub_cancel_right, mul_div_assoc, div_self hne, mul_one]
  · unfold scale_by_action_bounds
    nlinarith [mul_nonneg hx0 (sub_nonneg.mpr hlh.le)]
  · unfold scale_by_action_bounds
    nlinarith [mul_le_of_le_one_left (sub_nonneg.mpr hlh.le) hx1]

/-- Witness for C7 at the Humanoid bounds `low = -2/5`, `high = 2/5` and the
sample `x = 1/3`. -/
theorem beta_action_scaling_witness :
    inv_scale_by_action_bounds (-(2/5)) (2/5)
        (scale_by_action_bounds (-(2/5)) (2/5) (1/3)) = 1/3 ∧
    -(2/5) ≤ scale_by_action_bounds (-(2/5)) (2/5) (1/3) ∧
    scale_by_action_bounds (-(2/5)) (2/5) (1/3) ≤ 2/5 :=
  beta_action_scaling (-(2/5)) (2/5) (1/3) (by norm_num) (by norm_num) (by norm_num)

/-! ### Claim C8: non-finite Beta parameters are reported but not fatal

Embeds the control flow of `Agent.get_action_and_value`
(`ppo_mujoco_humanoid_beta.py` lines 157-172) as an event trace.  The finiteness
of the shape-parameter tensors `alpha` and `beta` (a property of floating-point
tensors, not of their numeric values) is abstracted into the two booleans that
drive the `torch.isnan/isinf` branch; `action_given` tells whether the `action`
argument was supplied (optimization path) or omitted (sampling path). -/

inductive BetaEvent
  | report
  | constructBeta
  | sample
  | evalLogProb
  deriving DecidableEq

/-- Event trace of `get_action_and_value`: if any component of `alpha` or
`beta` is NaN or Inf the offending networks' parameters are logged (`report`),
then — unconditionally — `Beta(alpha, beta)` is constructed, a sample is drawn
when no action was supplied, and the log-probability is evaluated. -/
def get_action_and_value_events (alpha_finite beta_finite action_given : Bool) :
    List BetaEvent :=
  (if !alpha_finite || !beta_finite then [BetaEvent.report] else []) ++
    [BetaEvent.constructBeta] ++
    (if action_given then [] else [BetaEvent.sample]) ++
    [BetaEvent.evalLogProb]

/-- C8 counterexample: with a non-finite `alpha` (and finite `beta`) on the
sampling path, the report is emitted but execution still constructs the Beta
distribution and samples from it — the condition is not treated as fatal, so
the claim as stated is false. -/
theorem beta_nonfinite_proceeds_cex :
    BetaEvent.report ∈ get_action_and_value_events false true false ∧
    BetaEvent.constructBeta ∈ get_action_and_value_events false true false ∧
    BetaEvent.sample ∈ get_action_and_value_events false true false := by
  decide

/-- C8 (amended): whenever any component of `alpha` or `beta` is NaN or
infinite, `get_action_and_value` detects the condition before constructing the
distribution and logs a diagnostic report, but then proceeds to construct the
Beta distribution and to sample / evaluate log-probabilities with it rather
than aborting. -/
theorem beta_nonfinite_report_then_proceeds (alpha_finite beta_finite action_given : Bool)
    (h : (alpha_finite && beta_finite) = false) :
    get_action_and_value_events alpha_finite beta_finite action_given =
      BetaEvent.report :: BetaEvent.constructBeta ::
        ((if action_given then [] else [BetaEvent.sample]) ++ [BetaEvent.evalLogProb]) := by
  cases alpha_finite <;> cases beta_finite <;> cases action_given <;>
    simp_all [get_action_and_value_events]

/-- Witness for the amended C8: non-finite `alpha`, finite `beta`, sampling
path. -/
theorem beta_nonfinite_report_then_proceeds_witness :
    get_action_and_value_events false true false =
      BetaEvent.report :: BetaEvent.constructBeta ::
        (([BetaEvent.sample] : List BetaEvent) ++ [BetaEvent.evalLogProb]) :=
  beta_nonfinite_report_then_proceeds false true false rfl

/-! ### Claims C1 and C3: the value-loss computations

Embeds the value-loss blocks of the optimization loops
(`ppo_mujoco_humanoid.py` lines 344-353, `ppo_mujoco_humanoid_beta.py` lines
348-357).  A minibatch is a list of scalar slots; `newvalue` is the recomputed
value estimate, `b_returns` the return target from the advantage estimator,
`b_values` the value recorded at collection time. -/

/-- Mean of a list of rationals, embedding `.mean()`. -/
def listMean (l : List ℚ) : ℚ := l.sum / l.length

/-- Embedding of `torch.clamp(x, lo, hi)`. -/
def pyClamp (x lo hi : ℚ) : ℚ := min (max x lo) hi

/-- Embedding of `v_loss_unclipped = (newvalue - b_returns[mb_inds]) ** 2`
(both variants). -/
def v_loss_unclipped (newvalue b_returns : List ℚ) : List ℚ :=
  List.zipWith (fun v r => (v - r) ^ 2) newvalue b_returns

/-- Embedding of `v_clipped = b_values + clamp(newvalue - b_values, -clip_coef,
clip_coef)` (both variants). -/
def v_clipped (clip_coef : ℚ) (newvalue b_values : List ℚ) : List ℚ :=
  List.zipWith (fun v ov => ov + pyClamp (v - ov) (-clip_coef) clip_coef)
    newvalue b_values

/-- Embedding of the Gaussian variant's
`v_loss_clipped = (v_clipped - b_returns[mb_inds]) ** 2` (line 349; computed
but never used afterwards). -/
def v_loss_clipped_h (clip_coef : ℚ) (newvalue b_values b_returns : List ℚ) : List ℚ :=
  List.zipWith (fun vc r => (vc - r) ^ 2) (v_clipped clip_coef newvalue b_values) b_returns

/-- Embedding of the Beta variant's
`v_loss_clipped = (v_clipped - b_values[mb_inds]) ** 2` (line 353; computed
but never used afterwards). -/
def v_loss_clipped_b (clip_coef : ℚ) (newvalue b_values : List ℚ) : List ℚ :=
  List.zipWith (fun vc ov => (vc - ov) ^ 2) (v_clipped clip_coef newvalue b_values) b_values

/-- Embedding of the Gaussian variant's clipped value loss, lines 347-351:
`v_loss_max = torch.max(v_loss_unclipped, v_loss_unclipped)` (the second
argument of the source's `torch.max` is again `v_loss_unclipped`, not
`v_loss_clipped`) and `v_loss = 0.5 * v_loss_max.mean()`. -/
def clip_vloss_humanoid (clip_coef : ℚ) (newvalue b_values b_returns : List ℚ) : ℚ :=
  (1 / 2) * listMean (List.zipWith max (v_loss_unclipped newvalue b_returns)
    (v_loss_unclipped newvalue b_returns))

/-- Embedding of the Beta variant's clipped value loss, lines 351-355: the
same self-`max` as the Gaussian variant. -/
def clip_vloss_beta (clip_coef : ℚ) (newvalue b_values b_returns : List ℚ) : ℚ :=
  (1 / 2) * listMean (List.zipWith max (v_loss_unclipped newvalue b_returns)
    (v_loss_unclipped newvalue b_returns))

/-- The value loss claim C1 states: half the mean of the pessimistic max of
the unclipped squared error and the clipped squared error against the return
target. -/
def clip_vloss_claim (clip_coef : ℚ) (newvalue b_values b_returns : List ℚ) : ℚ :=
  (1 / 2) * listMean (List.zipWith max (v_loss_unclipped newvalue b_returns)
    (v_loss_clipped_h clip_coef newvalue b_values b_returns))

/-- C1: evaluation of the source at the failing minibatch
`newvalue = [1]`, `b_values = [0]`, `b_returns = [1]`, `clip_coef = 1/5`.
Both variants compute `torch.max(v_loss_unclipped, v_loss_unclipped)` and
return `0`, while the claimed pessimistic max of clipped and unclipped squared
errors is `8/25` (the clipped squared error being `16/25`).  The code drops
the clipped term entirely. -/
theorem clip_vloss_self_max_defect :
    clip_vloss_humanoid (1/5) [1] [0] [1] = 0 ∧
    clip_vloss_beta (1/5) [1] [0] [1] = 0 ∧
    clip_vloss_claim (1/5) [1] [0] [1] = 8/25 ∧
    v_loss_clipped_h (1/5) [1] [0] [1] = [16/25] := by
  norm_num [clip_vloss_humanoid, clip_vloss_beta, clip_vloss_claim,
    v_loss_clipped_h, v_clipped, v_loss_unclipped, pyClamp, listMean,
    min_def, max_def]

/-- Embedding of the Gaussian variant's unclipped value loss, lines 352-353:
`v_loss = 0.5 * ((newvalue - b_returns[mb_inds]) ** 2).mean()`. -/
def noclip_vloss_humanoid (newvalue b_returns : List ℚ) : ℚ :=
  (1 / 2) * listMean (List.zipWith (fun v r => (v - r) ^ 2) newvalue b_returns)

/-- Embedding of the Beta variant's unclipped value loss, lines 356-357:
`v_loss = 0.5 * ((newvalue - b_values[mb_inds]) ** 2).mean()` — the target is
`b_values`, the value recorded at collection time, not `b_returns`. -/
def noclip_vloss_beta (newvalue b_values : List ℚ) : ℚ :=
  (1 / 2) * listMean (List.zipWith (fun v ov => (v - ov) ^ 2) newvalue b_values)

/-- The value loss claim C3 states for both variants: half the mean squared
error between the recomputed value estimate and the return target. -/
def noclip_vloss_claim (newvalue b_returns : List ℚ) : ℚ :=
  (1 / 2) * listMean (List.zipWith (fun v r => (v - r) ^ 2) newvalue b_returns)

/-- C3: evaluation at the failing minibatch `newvalue = [0]`,
`b_returns = [1]`, `b_values = [0]`.  The claimed loss (and the Gaussian
variant's loss) is `1/2`, but the Beta variant regresses against the
collection-time value `b_values` and returns `0`. -/
theorem noclip_vloss_beta_wrong_target :
    noclip_vloss_claim [0] [1] = 1/2 ∧
    noclip_vloss_humanoid [0] [1] = 1/2 ∧
    noclip_vloss_beta [0] [0] = 0 := by
  norm_num [noclip_vloss_claim, noclip_vloss_humanoid, noclip_vloss_beta, listMean]

/-! ### Claim C9: KL early stopping and the metric emission

Embeds the epoch loop, the `target_kl` break (Gaussian lines 365-367, Beta
lines 369-371), the `explained_var` assignment that follows the break check
inside the epoch body (lines 369-371 resp. 373-375), the metric emission that
reads `explained_var` (line 380 resp. 384), and the driver loop over update
cycles.  The only state tracked is whether the Python variable
`explained_var` has been assigned; reading it unassigned is a `NameError`. -/

inductive RunFailure
  | nameErrorExplainedVar
  deriving DecidableEq

/-- One update cycle's epoch loop.  `remaining` epochs are left, `e` is the
current epoch index, `ev` records whether `explained_var` has ever been
assigned.  Each iteration runs the minibatch loop (abstracted), then tests the
KL break — which exits before the `explained_var` assignment — and otherwise
assigns `explained_var` and continues.  Returns the final `ev`. -/
def epochLoopGo (target_kl_set : Bool) (kl_exceeds : ℕ → Bool) :
    ℕ → ℕ → Bool → Bool
  | 0, _, ev => ev
  | remaining + 1, e, ev =>
    if target_kl_set && kl_exceeds e then ev
    else epochLoopGo target_kl_set kl_exceeds remaining (e + 1) true

/-- The metric emission at the end of an update cycle reads `explained_var`;
if it was never assigned, Python raises `NameError`. -/
def emitMetrics (ev : Bool) : Except RunFailure Unit :=
  if ev then Except.ok () else Except.error RunFailure.nameErrorExplainedVar

/-- One full update cycle: run `update_epochs` epochs with the KL break, then
emit metrics.  Returns the (possibly updated) `explained_var`-assigned state,
or the run failure. -/
def updateCycle (update_epochs : ℕ) (target_kl_set : Bool) (kl_exceeds : ℕ → Bool)
    (ev : Bool) : Except RunFailure Bool :=
  match emitMetrics (epochLoopGo target_kl_set kl_exceeds update_epochs 0 ev) with
  | Except.ok _ => Except.ok (epochLoopGo target_kl_set kl_exceeds update_epochs 0 ev)
  | Except.error err => Except.error err

/-- The driver loop over update cycles `u, u+1, ...` with `remaining` cycles
left; `kl_exceeds u e` tells whether `approx_kl` exceeds the configured
threshold after epoch `e` of cycle `u`.  The `explained_var` state persists
across cycles, initially unassigned. -/
def driverGo (update_epochs : ℕ) (target_kl_set : Bool) (kl_exceeds : ℕ → ℕ → Bool) :
    ℕ → ℕ → Bool → Except RunFailure Bool
  | _, 0, ev => Except.ok ev
  | u, remaining + 1, ev =>
    match updateCycle update_epochs target_kl_set (kl_exceeds u) ev with
    | Except.ok ev2 => driverGo update_epochs target_kl_set kl_exceeds (u + 1) remaining ev2
    | Except.error err => Except.error err

/-- The training driver: cycles `1 .. num_updates`, `explained_var` initially
unassigned. -/
def driverLoop (update_epochs : ℕ) (target_kl_set : Bool)
    (kl_exceeds : ℕ → ℕ → Bool) (num_updates : ℕ) : Except RunFailure Bool :=
  driverGo update_epochs target_kl_set kl_exceeds 1 num_updates false

/-- C9: evaluation of the embedded driver at the failing input.  With a
target KL configured and `approx_kl` exceeding it after the first epoch of the
first update cycle, the break skips the only assignment of `explained_var`
that could have happened, and the metric emission reads the unassigned
variable: the run fails with a `NameError` instead of proceeding to the next
cycle (first two conjuncts).  When the threshold is first exceeded at any
later epoch or cycle, an earlier epoch has assigned `explained_var` and the
run proceeds normally, as the claim describes (last two conjuncts). -/
theorem kl_first_epoch_first_cycle_failure :
    driverLoop 10 true (fun _ _ => true) 1 =
      Except.error RunFailure.nameErrorExplainedVar ∧
    driverLoop 10 true (fun u e => u == 1 && e == 0) 3 =
      Except.error RunFailure.nameErrorExplainedVar ∧
    driverLoop 10 true (fun u e => u == 2 && e == 0) 3 = Except.ok true ∧
    driverLoop 10 true (fun u e => u == 1 && e == 1) 3 = Except.ok true :=
  ⟨rfl, rfl, rfl, rfl⟩

/-! ### Claims C4 and C5: the GAE backward recursion

Embeds the GAE branch of the advantage estimator
(`ppo_mujoco_humanoid.py` lines 282-296, identical in
`ppo_mujoco_humanoid_beta.py` lines 286-300).  All tensor operations in the
loop are elementwise over the `num_envs` axis, so the embedding models one
environment column; `rewards`, `values` and `dones` are the buffer columns
(dones holds the 0/1 float flags), `next_value` is the bootstrap value of the
post-segment observation and `next_done` the done flag after the last step. -/

structure GaeInput where
  T : ℕ
  gamma : ℚ
  gae_lambda : ℚ
  rewards : ℕ → ℚ
  values : ℕ → ℚ
  dones : ℕ → ℚ
  next_value : ℚ
  next_done : ℚ

/-- Embedding of the per-iteration selection
`nextnonterminal = 1.0 - next_done` at `t = num_steps - 1`, else
`1.0 - dones[t + 1]`. -/
def nextnonterminal (inp : GaeInput) (t : ℕ) : ℚ :=
  if t = inp.T - 1 then 1 - inp.next_done else 1 - inp.dones (t + 1)

/-- Embedding of the per-iteration selection `nextvalues = next_value` at
`t = num_steps - 1`, else `values[t + 1]`. -/
def nextvalues (inp : GaeInput) (t : ℕ) : ℚ :=
  if t = inp.T - 1 then inp.next_value else inp.values (t + 1)

/-- Embedding of
`delta = rewards[t] + gamma * nextvalues * nextnonterminal - values[t]`. -/
def delta (inp : GaeInput) (t : ℕ) : ℚ :=
  inp.rewards t + inp.gamma * nextvalues inp t * nextnonterminal inp t - inp.values t

/-- One iteration of the backward loop body at index `t`: the state is the
pair of the accumulator `lastgaelam` and the `advantages` array; the body
computes `lastgaelam = delta + gamma * gae_lambda * nextnonterminal *
lastgaelam` and stores it at `advantages[t]`. -/
def gaeStep (inp : GaeInput) (st : ℚ × (ℕ → ℚ)) (t : ℕ) : ℚ × (ℕ → ℚ) :=
  let lastgaelam :=
    delta inp t + inp.gamma * inp.gae_lambda * nextnonterminal inp t * st.1
  (lastgaelam, fun s => if s = t then lastgaelam else st.2 s)

/-- Embedding of the loop `for t in reversed(range(args.num_steps))` with
`lastgaelam = 0` and `advantages = torch.zeros_like(rewards)` before it. -/
def gaeFold (inp : GaeInput) : ℚ × (ℕ → ℚ) :=
  (List.range inp.T).reverse.foldl (gaeStep inp) (0, fun _ => 0)

/-- The advantages tensor produced by the GAE branch. -/
def advantages (inp : GaeInput) (t : ℕ) : ℚ := (gaeFold inp).2 t

/-- Embedding of `returns = advantages + values`. -/
def gaeReturns (inp : GaeInput) (t : ℕ) : ℚ := advantages inp t + inp.values t

/-- Tail-recursive restatement of the backward loop: `processDown inp k st`
runs the loop body at `t = k - 1, k - 2, ..., 0` starting from state `st`. -/
def processDown (inp : GaeInput) : ℕ → (ℚ × (ℕ → ℚ)) → ℚ × (ℕ → ℚ)
  | 0, st => st
  | k + 1, st => processDown inp k (gaeStep inp st k)

/-- The fold over `reversed(range(k))` agrees with `processDown`. -/
theorem foldl_reverse_range_eq (inp : GaeInput) :
    ∀ (k : ℕ) (st : ℚ × (ℕ → ℚ)),
      (List.range k).reverse.foldl (gaeStep inp) st = processDown inp k st := by
  intro k
  induction k with
  | zero => intro st; rfl
  | succ n ih =>
    intro st
    rw [List.range_succ, List.reverse_append, List.reverse_singleton,
      List.singleton_append, List.foldl_cons, ih]
    rfl

/-- The recursion that claim C4 states, defined from the top of the segment:
`advSpec inp t = delta[t] + gamma * lambda * nextnonterminal[t] *
advSpec inp (t+1)`, with the `t+1` term replaced by the accumulator's initial
value 0 at the last step. -/
def advSpec (inp : GaeInput) (t : ℕ) : ℚ :=
  if t + 1 < inp.T then
    delta inp t + inp.gamma * inp.gae_lambda * nextnonterminal inp t * advSpec inp (t + 1)
  else delta inp t
termination_by inp.T - t
decreasing_by simp_wf; omega

/-- Unfolding equation for `advSpec`. -/
theorem advSpec_def (inp : GaeInput) (t : ℕ) :
    advSpec inp t =
      if t + 1 < inp.T then
        delta inp t + inp.gamma * inp.gae_lambda * nextnonterminal inp t * advSpec inp (t + 1)
      else delta inp t := by
  rw [advSpec]

/-- Invariant of the backward loop: if the incoming accumulator is correct for
position `k` (0 when entering the loop at `k = T`, the already-computed
advantage of row `k` otherwise), then after processing rows `k-1 .. 0` the
array holds `advSpec` at every index below `k` and is untouched above. -/
theorem processDown_eval (inp : GaeInput) :
    ∀ (k : ℕ) (st : ℚ × (ℕ → ℚ)), k ≤ inp.T →
      (k = inp.T → st.1 = 0) →
      (k < inp.T → st.1 = advSpec inp k) →
      ∀ s : ℕ, (processDown inp k st).2 s = if s < k then advSpec inp s else st.2 s := by
  intro k
  induction k with
  | zero =>
    intro st _ _ _ s
    simp [processDown]
  | succ n ih =>
    intro st hkT h0 hlt s
    have hnT : n < inp.T := Nat.lt_of_lt_of_le (Nat.lt_succ_self n) hkT
    have hstep1 : (gaeStep inp st n).1 = advSpec inp n := by
      show delta inp n + inp.gamma * inp.gae_lambda * nextnonterminal inp n * st.1
          = advSpec inp n
      by_cases hn1 : n + 1 < inp.T
      · rw [hlt hn1, advSpec_def inp n, if_pos hn1]
      · have hEq : n + 1 = inp.T := by omega
        rw [h0 hEq, advSpec_def inp n, if_neg hn1, mul_zero, add_zero]
    have happ := ih (gaeStep inp st n) hnT.le
      (fun h => absurd h (Nat.ne_of_lt hnT)) (fun _ => hstep1)
    have hunf : processDown inp (n + 1) st = processDown inp n (gaeStep inp st n) := rfl
    rw [hunf, happ s]
    by_cases hs : s < n
    · rw [if_pos hs, if_pos (Nat.lt_succ_of_lt hs)]
    · by_cases hs2 : s = n
      · subst hs2
        rw [if_neg hs, if_pos (Nat.lt_succ_self s)]
        show (if s = s then (gaeStep inp st s).1 else st.2 s) = advSpec inp s
        rw [if_pos rfl, hstep1]
      · rw [if_neg hs, if_neg (by omega : ¬ s < n + 1)]
        show (if s = n then (gaeStep inp st n).1 else st.2 s) = st.2 s
        rw [if_neg hs2]

/-- The advantages array produced by the source loop equals the claim's
recursion at every in-range index (and 0 outside the segment). -/
theorem advantages_eval (inp : GaeInput) (t : ℕ) :
    advantages inp t = if t < inp.T then advSpec inp t else 0 := by
  have h := processDown_eval inp inp.T (0, fun _ => 0) le_rfl
    (fun _ => rfl) (fun h => absurd h (lt_irrefl _)) t
  unfold advantages gaeFold
  rw [foldl_reverse_range_eq inp inp.T (0, fun _ => 0)]
  exact h

/-- The property claim C4 states of row `t` of a segment: the advantage
satisfies the backward recursion `advantage[t] = delta[t] + gamma * lambda *
nextnonterminal * advantage[t+1]` (with the accumulator's initial value 0 in
place of `advantage[t+1]` at the last row), `return[t] = advantage[t] +
value[t]`, and the next-step data comes from the bootstrap at `t = T - 1` and
from buffer row `t + 1` below it. -/
def GaeRecursionAt (inp : GaeInput) (t : ℕ) : Prop :=
  advantages inp t =
      delta inp t + inp.gamma * inp.gae_lambda * nextnonterminal inp t *
        (if t + 1 < inp.T then advantages inp (t + 1) else 0) ∧
  gaeReturns inp t = advantages inp t + inp.values t ∧
  (t = inp.T - 1 →
    nextvalues inp t = inp.next_value ∧ nextnonterminal inp t = 1 - inp.next_done) ∧
  (t + 1 < inp.T →
    nextvalues inp t = inp.values (t + 1) ∧ nextnonterminal inp t = 1 - inp.dones (t + 1))

/-- C4: in GAE mode, for every segment and every in-range step `t`, the
advantages and returns produced by the backward loop satisfy the stated
recursion with accumulator initialized to 0, bootstrap next-step data at
`t = T - 1`, and buffer-row `t+1` data below. -/
theorem gae_backward_recursion (inp : GaeInput) (t : ℕ) (ht : t < inp.T) :
    GaeRecursionAt inp t := by
  refine ⟨?_, rfl, ?_, ?_⟩
  · rw [advantages_eval inp t, if_pos ht, advSpec_def]
    by_cases h1 : t + 1 < inp.T
    · rw [if_pos h1, if_pos h1, advantages_eval, if_pos h1]
    · rw [if_neg h1, if_neg h1, mul_zero, add_zero]
  · intro hlast
    unfold nextvalues nextnonterminal
    rw [if_pos hlast, if_pos hlast]
    exact ⟨rfl, rfl⟩
  · intro h1
    have hne : t ≠ inp.T - 1 := by omega
    unfold nextvalues nextnonterminal
    rw [if_neg hne, if_neg hne]
    exact ⟨rfl, rfl⟩

/-- A concrete two-step segment used to witness C4. -/
def gaeEx : GaeInput :=
  { T := 2, gamma := 1/2, gae_lambda := 1/2,
    rewards := fun _ => 1, values := fun _ => 0, dones := fun _ => 0,
    next_value := 3, next_done := 0 }

/-- Witness for C4 at the concrete segment `gaeEx` and row 0. -/
theorem gae_backward_recursion_witness : GaeRecursionAt gaeEx 0 :=
  gae_backward_recursion gaeEx 0 (by norm_num [gaeEx])

/-- Helper for C5: when the segment-final done flag is 1, the last-row
advantage is exactly `reward - value` (the bootstrap term is multiplied by
`nextnonterminal = 0`). -/
theorem adv_last_of_done (inp : GaeInput) (hT : 1 ≤ inp.T) (hd : inp.next_done = 1) :
    advantages inp (inp.T - 1) = inp.rewards (inp.T - 1) - inp.values (inp.T - 1) := by
  have hlt : inp.T - 1 < inp.T := by omega
  rw [advantages_eval, if_pos hlt, advSpec_def, if_neg (by omega : ¬ inp.T - 1 + 1 < inp.T)]
  unfold delta nextnonterminal nextvalues
  rw [if_pos rfl, if_pos rfl, hd]
  ring

/-- C5: for every segment whose final done flag is 1, the last-step advantage
equals `reward[T-1] - value[T-1]` exactly, and it is unchanged under replacing
the bootstrap `next_value` by any other value `nv`. -/
theorem gae_terminal_last_step (inp : GaeInput) (nv : ℚ)
    (hT : 1 ≤ inp.T) (hd : inp.next_done = 1) :
    advantages inp (inp.T - 1) = inp.rewards (inp.T - 1) - inp.values (inp.T - 1) ∧
    advantages { inp with next_value := nv } (inp.T - 1) = advantages inp (inp.T - 1) := by
  have h1 := adv_last_of_done inp hT hd
  have h2 := adv_last_of_done { inp with next_value := nv } hT hd
  exact ⟨h1, h2.trans h1.symm⟩

/-- A concrete one-step all-terminal segment used to witness C5. -/
def gaeEx2 : GaeInput :=
  { T := 1, gamma := 1/2, gae_lambda := 3/4,
    rewards := fun _ => 2, values := fun _ => 5, dones := fun _ => 0,
    next_value := 7, next_done := 1 }

/-- Witness for C5 at the concrete all-terminal segment `gaeEx2`, replacing
the bootstrap value 7 by 9. -/
theorem gae_terminal_last_step_witness :
    advantages gaeEx2 (gaeEx2.T - 1) =
      gaeEx2.rewards (gaeEx2.T - 1) - gaeEx2.values (gaeEx2.T - 1) ∧
    advantages { gaeEx2 with next_value := 9 } (gaeEx2.T - 1) =
      advantages gaeEx2 (gaeEx2.T - 1) :=
  gae_terminal_last_step gaeEx2 9 (by norm_num [gaeEx2]) (by norm_num [gaeEx2])

/-! ### Claim C6: the minibatch partition covers every index exactly once

Embeds the epoch loop of the optimizer (`ppo_mujoco_humanoid.py` lines
317-323, identical in `ppo_mujoco_humanoid_beta.py` lines 321-327):
`b_inds = np.arange(args.batch_size)` and, each epoch,
`np.random.shuffle(b_inds)` followed by the slices
`b_inds[start : start + minibatch_size]` for
`start in range(0, batch_size, minibatch_size)`.  The in-place shuffle is a
permutation of the array's entries, so each epoch's index array is modelled
as an arbitrary permutation of `range(batch_size)`; the randomness itself has
no shallow embedding. -/

/-- Embedding of Python's `range(0, stop, step)` for positive step. -/
def pyRangeStep (stop step : ℕ) : List ℕ :=
  (List.range ((stop + step - 1) / step)).map (fun i => i * step)

/-- Embedding of the minibatch slices
`[b_inds[start : start + minibatch_size] for start in
range(0, batch_size, minibatch_size)]`. -/
def mbSlices (b_inds : List ℕ) (batch_size minibatch_size : ℕ) : List (List ℕ) :=
  (pyRangeStep batch_size minibatch_size).map
    (fun start => (b_inds.drop start).take minibatch_size)

/-- For an evenly divisible batch, `range(0, k * mb, mb)` has exactly `k`
starts. -/
theorem pyRangeStep_divisible (k mb : ℕ) (hmb : 0 < mb) :
    pyRangeStep (k * mb) mb = (List.range k).map (fun i => i * mb) := by
  unfold pyRangeStep
  have h1 : k * mb + mb - 1 = mb * k + (mb - 1) := by
    cases mb with
    | zero => omega
    | succ m => ring_nf; omega
  rw [h1, Nat.mul_add_div hmb, Nat.div_eq_of_lt (by omega), Nat.add_zero]

/-- The slices of an evenly divisible batch, in start order. -/
theorem mbSlices_divisible (l : List ℕ) (k mb : ℕ) (hmb : 0 < mb) :
    mbSlices l (k * mb) mb =
      (List.range k).map (fun i => (l.drop (i * mb)).take mb) := by
  unfold mbSlices
  rw [pyRangeStep_divisible k mb hmb, List.map_map]
  rfl

/-- Concatenating the `k` contiguous `mb`-sized chunks of a list of length
`k * mb` recovers the list. -/
theorem chunks_join (mb : ℕ) (hmb : 0 < mb) :
    ∀ (k : ℕ) (l : List ℕ), l.length = k * mb →
      ((List.range k).map (fun i => (l.drop (i * mb)).take mb)).flatten = l := by
  intro k
  induction k with
  | zero =>
    intro l hl
    have hnil : l = [] := List.eq_nil_of_length_eq_zero (by simpa using hl)
    subst hnil
    rfl
  | succ n ih =>
    intro l hl
    have hcomp : ((fun i => (l.drop (i * mb)).take mb) ∘ Nat.succ)
        = fun i => (((l.drop mb).drop (i * mb)).take mb) := by
      funext i
      simp only [Function.comp]
      rw [List.drop_drop]
      congr 2
      rw [Nat.succ_mul, Nat.add_comm]
    have hl' : l.length = n * mb + mb := by
      rw [hl]
      ring
    have hlen2 : (l.drop mb).length = n * mb := by
      rw [List.length_drop]
      omega
    simp only [List.range_succ_eq_map, List.map_cons, List.map_map, Nat.zero_mul,
      List.drop_zero, hcomp, List.flatten_cons]
    rw [ih (l.drop mb) hlen2, List.take_append_drop]

/-- Occurrence count of an index in `range B`. -/
theorem count_range_eq (B i : ℕ) :
    (List.range B).count i = if i < B then 1 else 0 := by
  by_cases h : i < B
  · rw [if_pos h]
    exact List.count_eq_one_of_mem (List.nodup_range B) (List.mem_range.mpr h)
  · rw [if_neg h]
    exact List.count_eq_zero_of_not_mem (fun hmem => h (List.mem_range.mp hmem))

/-- C6: in every epoch, `b_inds` is a permutation of `0 .. batch_size - 1`
(the in-place shuffle permutes the array that started as
`arange(batch_size)`), and for `batch_size = k * minibatch_size` evenly
divisible the contiguous minibatch slices concatenate back to exactly the
index array — so they cover every index `i < batch_size` exactly once per
epoch, with no duplicates and no omissions, and contain nothing else. -/
theorem minibatch_partition_covers (k mb : ℕ) (b_inds : List ℕ) (i : ℕ)
    (hmb : 0 < mb) (hperm : b_inds.Perm (List.range (k * mb))) :
    (mbSlices b_inds (k * mb) mb).flatten = b_inds ∧
    ((mbSlices b_inds (k * mb) mb).flatten).count i = if i < k * mb then 1 else 0 := by
  have hlen : b_inds.length = k * mb := by
    rw [hperm.length_eq, List.length_range]
  have hjoin : (mbSlices b_inds (k * mb) mb).flatten = b_inds := by
    rw [mbSlices_divisible b_inds k mb hmb]
    exact chunks_join mb hmb k b_inds hlen
  refine ⟨hjoin, ?_⟩
  rw [hjoin, hperm.count_eq, count_range_eq]

/-- Witness for C6: batch size 4, minibatch size 2, the shuffled index array
`[1, 0, 3, 2]`, and the probed index 3. -/
theorem minibatch_partition_covers_witness :
    (mbSlices [1, 0, 3, 2] (2 * 2) 2).flatten = [1, 0, 3, 2] ∧
    ((mbSlices [1, 0, 3, 2] (2 * 2) 2).flatten).count 3 = if 3 < 2 * 2 then 1 else 0 :=
  minibatch_partition_covers 2 2 [1, 0, 3, 2] 3 (by decide)
    (List.isPerm_iff.mp (by decide))
